import Mathlib

/-!
Shallow embedding of `src/electron_magnetic_bottle.py`, a single linear
analysis pipeline for magnetic-bottle electron time-of-flight spectra:
foreground/background separation, least-squares time-of-flight→energy
calibration, coordinate/Jacobian transforms, and flux-conserving rebinning.

Floating-point values are modelled by exact rationals (`ℚ`); the square root
in the inverse coordinate transform forces a real (`ℝ`) result there.  A
non-finite float (NaN from the `tof*np.nan` sentinel initialisation or from
the square root of a negative number, infinity from division by zero) is
modelled as `none : Option _`.
-/

/-! ### Foreground/background separation (source lines 21-27) -/

/-- Source line 21: `background_shots = bunches % background_period == 0`,
elementwise over the bunch-index array. -/
def background_shots (background_period bunch : ℤ) : Bool :=
  bunch % background_period == 0

/-- Source line 22: `foreground_shots = ~background_shots`. -/
def foreground_shots (background_period bunch : ℤ) : Bool :=
  ! background_shots background_period bunch

/-- Source line 23: `eon_tof_fore = eon_tof_all[foreground_shots]`; boolean-mask
selection is zipping each waveform with its bunch index and keeping the rows
whose mask entry is true. -/
def eon_tof_fore (background_period : ℤ) (bunches : List ℤ)
    (eon_tof_all : List (List ℚ)) : List (List ℚ) :=
  ((bunches.zip eon_tof_all).filter
    (fun x => foreground_shots background_period x.1)).map Prod.snd

/-- Source line 24: `eon_tof_back = eon_tof_all[background_shots]`. -/
def eon_tof_back (background_period : ℤ) (bunches : List ℤ)
    (eon_tof_all : List (List ℚ)) : List (List ℚ) :=
  ((bunches.zip eon_tof_all).filter
    (fun x => background_shots background_period x.1)).map Prod.snd

/-- Numpy semantics of `np.average(a, axis=0)` on a stack of `m`-sample
waveforms: the per-sample mean.  On an empty stack numpy emits only a
`RuntimeWarning` and yields NaN (`none`) at every sample; it does not raise. -/
def np_average (m : ℕ) (l : List (List ℚ)) : List (Option ℚ) :=
  (List.range m).map (fun j =>
    if l.length = 0 then none
    else some ((l.map (fun w => w.getD j 0)).sum / (l.length : ℚ)))

/-- Source line 26: `avg_eon_tof_fore = np.average(eon_tof_fore, axis=0)`. -/
def avg_eon_tof_fore (m : ℕ) (background_period : ℤ) (bunches : List ℤ)
    (eon_tof_all : List (List ℚ)) : List (Option ℚ) :=
  np_average m (eon_tof_fore background_period bunches eon_tof_all)

/-! ### Retardation-voltage lookup (source lines 45-57) -/

/-- Source line 53: `retardation_voltage = voltage_1*voltage_1_on +
voltage_2*voltage_2_on - voltage_3*voltage_3_on`. -/
def retardation_voltage_calc (v1 v2 v3 o1 o2 o3 : ℚ) : ℚ :=
  v1 * o1 + v2 * o2 - v3 * o3

/-- Source lines 45-57: the try/except around the six optional metadata reads.
The argument models the h5 reads: `Except.ok` carries the six field values
(three voltages, three enable flags), `Except.error` carries the exception
message.  The result is the retardation voltage together with the list of
printed diagnostic lines. -/
def retardation_voltage_lookup
    (reads : Except String (ℚ × ℚ × ℚ × ℚ × ℚ × ℚ)) : ℚ × List String :=
  match reads with
  | Except.ok (v1, v2, v3, o1, o2, o3) =>
      (retardation_voltage_calc v1 v2 v3 o1 o2 o3, [])
  | Except.error e =>
      (0, ["Cannot determine retardation voltage from files. Following exception occured:", e])

/-! ### Calibration fit (source lines 34-78) -/

/-- Source lines 37-43: `ke = 1 / (C * (tof - T0)**2) + KE0`. -/
def ke_fit_model (C T0 KE0 tof : ℚ) : ℚ :=
  1 / (C * (tof - T0)^2) + KE0

/-- Source lines 34-35: `residuals(params, model, x, y) = y - model(params, x)`. -/
def residuals (C T0 KE0 x y : ℚ) : ℚ :=
  y - ke_fit_model C T0 KE0 x

/-- Source line 59: `timezero = 5000`; `T0` is held fixed at this value in the
fit (source line 65). -/
def timezero_init : ℚ := 5000

/-- Objective of `lmfit.minimize` (source lines 70-74): sum of squared
residuals at the literal calibration points (5800, 20) and (6100, 10), with
`T0` fixed at 5000 and `KE0` fixed at the retardation voltage; only `C`
varies. -/
def sum_sq_residuals (KE0 C : ℚ) : ℚ :=
  (residuals C timezero_init KE0 5800 20)^2 + (residuals C timezero_init KE0 6100 10)^2

/-- Closed form of the least-squares minimiser in the variable a = 1/C: the
objective is quadratic in a, with (5800-5000)^2 = 640000 and
(6100-5000)^2 = 1210000.  See `fitted_C_minimizes`. -/
def fitted_invC (KE0 : ℚ) : ℚ :=
  ((20 - KE0) * (1/640000) + (10 - KE0) * (1/1210000)) / ((1/640000)^2 + (1/1210000)^2)

/-- The converged fit result `fit_params['C'].value` = `propconst` (source
lines 75-76): the argmin of `sum_sq_residuals KE0` (proved in
`fitted_C_minimizes`). -/
def fitted_C (KE0 : ℚ) : ℚ := 1 / fitted_invC KE0

/-! ### Coordinate and Jacobian transforms (source lines 81-113) -/

/-- Source lines 81-84: energy is computed only on the mask `tof > timezero`;
the remaining entries keep the `tof*np.nan` sentinel (`none`). -/
def ke_coordinate_func (propconst timezero ke0 : ℚ) (tof : ℚ) : Option ℚ :=
  if tof > timezero then some (1 / propconst / (tof - timezero)^2 + ke0) else none

/-- Source lines 86-90, docstring "jacobian = |dT/dKE|": computed only on the
mask `tof > timezero`, as `(tof - timezero)**3 / (-2 * 1/propconst)`. -/
def ke_jacobian_func (propconst timezero : ℚ) (tof : ℚ) : Option ℚ :=
  if tof > timezero then some ((tof - timezero)^3 / (-2 * (1 / propconst))) else none

/-- Source lines 92-95: `tof[ke<0] = np.sqrt(1/propconst / (ke[ke<0] - ke0)) +
timezero`, remaining entries keep the NaN sentinel.  `none` models a
non-finite float: the sentinel itself, NaN from the square root of a negative
radicand, or infinity from a zero denominator (`ke = ke0`). -/
noncomputable def tof_coordinate_func (propconst timezero ke0 : ℚ) (ke : ℚ) : Option ℝ :=
  if ke < 0 then
    if ke ≠ ke0 ∧ 0 ≤ 1 / propconst / (ke - ke0) then
      some (Real.sqrt ((1 / propconst / (ke - ke0) : ℚ) : ℝ) + (timezero : ℝ))
    else none
  else none

/-- Source lines 97-100, docstring "jacobian = |dKE/dT|":
`(-2 * 1/propconst) / (tof_coordinate_func(ke) - timezero)**3`; NaN inputs
propagate to NaN outputs. -/
noncomputable def tof_jacobian_func (propconst timezero ke0 : ℚ) (ke : ℚ) : Option ℝ :=
  (tof_coordinate_func propconst timezero ke0 ke).map
    (fun t => (-2 * (1 / (propconst : ℝ))) / (t - (timezero : ℝ))^3)

/-- Source line 103: `tof_ns = np.arange(len(avg_eon_tof))`, for a waveform of
`n` samples. -/
def tof_ns (n : ℕ) : List ℚ :=
  (List.range n).map (fun i : ℕ => (i : ℚ))

/-- Source lines 104-108: apply the time→energy transform to the sample times,
drop the non-finite entries (`not_nan = np.isfinite(eke_ev)`), and reverse. -/
def eke_ev (propconst timezero ke0 : ℚ) (n : ℕ) : List ℚ :=
  ((tof_ns n).filterMap (ke_coordinate_func propconst timezero ke0)).reverse

/-- Source line 112: `_tof_ns = tof_coordinate_func(eke_ev)`, the backward
transform of the filtered energy axis. -/
noncomputable def back_tof_ns (propconst timezero ke0 : ℚ) (n : ℕ) : List (Option ℝ) :=
  (eke_ev propconst timezero ke0 n).map (tof_coordinate_func propconst timezero ke0)

/-! ### Rebinning (source lines 156-159) -/

/-- Numpy semantics of `np.gradient` with unit spacing on an array of `n ≥ 2`
entries: one-sided differences at both ends, central differences inside. -/
def np_gradient (n : ℕ) (F : ℕ → ℚ) (i : ℕ) : ℚ :=
  if i = 0 then F 1 - F 0
  else if i = n - 1 then F (n - 1) - F (n - 2)
  else (F (i + 1) - F (i - 1)) / 2

/-- Trapezoidal integral of the samples `y` over the grid `x` of `n` points:
the total integrated signal of a sampled spectrum. -/
def np_trapz (n : ℕ) (x y : ℕ → ℚ) : ℚ :=
  ∑ i ∈ Finset.range (n - 1), (y i + y (i + 1)) / 2 * (x (i + 1) - x i)

/-- Source line 156: `new_eke_ev = np.linspace(np.min(eke_ev), 50, num=1000)`,
with `e0` the minimum of the filtered energy axis. -/
def new_eke_ev (e0 : ℚ) (i : ℕ) : ℚ :=
  e0 + (i : ℚ) * ((50 - e0) / 999)

/-- Source line 159: `new_avg_eon_eke = np.gradient(eke_spec_interpolation(
new_eke_ev)) / np.gradient(new_eke_ev)`.  `G` stands for
`eke_spec_interpolation` (source line 158), the linear interpolant of the
cumulative Simpson integral (`initial=0`) of the filtered spectrum over its
energy axis, kept abstract: the conservation identity holds for every
cumulative curve. -/
def new_avg_eon_eke (G : ℚ → ℚ) (e0 : ℚ) (i : ℕ) : ℚ :=
  np_gradient 1000 (fun j => G (new_eke_ev e0 j)) i / np_gradient 1000 (new_eke_ev e0) i

/-! ### Theorems on separation, averaging and the metadata lookup -/

/-- Claim C6: for every periodicity marker N > 1, an acquisition is background
iff its bunch index is divisible by N and foreground otherwise; the two masks
are complementary (disjoint, jointly exhaustive), and the two selected subsets
together are a permutation of the full acquisition set. -/
theorem background_foreground_partition (background_period : ℤ)
    (hbp : 1 < background_period) (bunches : List ℤ) (eon_tof_all : List (List ℚ))
    (hlen : eon_tof_all.length ≤ bunches.length) :
    (∀ i : ℤ,
      (background_shots background_period i = true ↔ i % background_period = 0)
      ∧ foreground_shots background_period i = ! background_shots background_period i
      ∧ ¬(background_shots background_period i = true
          ∧ foreground_shots background_period i = true)
      ∧ (background_shots background_period i = true
          ∨ foreground_shots background_period i = true))
    ∧ (eon_tof_back background_period bunches eon_tof_all
        ++ eon_tof_fore background_period bunches eon_tof_all).Perm eon_tof_all := by
  constructor
  · intro i
    refine ⟨beq_iff_eq, rfl, ?_, ?_⟩
    · rintro ⟨hb, hf⟩
      simp [foreground_shots, hb] at hf
    · by_cases hb : background_shots background_period i = true
      · exact Or.inl hb
      · exact Or.inr (by simp [foreground_shots, hb])
  · have hperm :
        ((bunches.zip eon_tof_all).filter
            (fun x => background_shots background_period x.1)
          ++ (bunches.zip eon_tof_all).filter
            (fun x => ! background_shots background_period x.1)).Perm
          (bunches.zip eon_tof_all) :=
      List.filter_append_perm _ _
    have := hperm.map Prod.snd
    rw [List.map_append] at this
    have hsnd : (bunches.zip eon_tof_all).map Prod.snd = eon_tof_all :=
      List.map_snd_zip _ _ hlen
    rw [hsnd] at this
    simpa [eon_tof_back, eon_tof_fore, foreground_shots] using this

/-- Witness for C6 at marker 2 on a concrete three-acquisition set. -/
theorem background_foreground_partition_witness :
    (eon_tof_back 2 [0, 1, 2] [[5], [6], [7]]
      ++ eon_tof_fore 2 [0, 1, 2] [[5], [6], [7]]).Perm [[5], [6], [7]] :=
  (background_foreground_partition 2 (by norm_num) [0, 1, 2] [[5], [6], [7]]
    (by decide)).2

/-- Claim C7, counterexample: with marker 1 the foreground subset is empty and
the averaging step returns an (unflagged) all-NaN array; no error is raised,
contrary to the claim. -/
theorem marker_one_averaging_returns_nan :
    eon_tof_fore 1 [1, 2, 3] [[5], [6], [7]] = []
    ∧ avg_eon_tof_fore 1 1 [1, 2, 3] [[5], [6], [7]] = [none] := by
  constructor
  · decide
  · decide

/-- Claim C7, amended: when the periodicity marker equals 1 every acquisition
is classified background, the foreground subset is empty, and the averaging
step returns an array of NaN (`none`) entries — numpy only warns, it does not
raise an error. -/
theorem marker_one_all_background (m : ℕ) (bunches : List ℤ)
    (eon_tof_all : List (List ℚ)) :
    (∀ i : ℤ, background_shots 1 i = true)
    ∧ eon_tof_fore 1 bunches eon_tof_all = []
    ∧ avg_eon_tof_fore m 1 bunches eon_tof_all = List.replicate m none := by
  have hback : ∀ i : ℤ, background_shots 1 i = true := by
    intro i
    simp [background_shots, Int.emod_one]
  have hfore : eon_tof_fore 1 bunches eon_tof_all = [] := by
    unfold eon_tof_fore
    rw [List.filter_eq_nil_iff.mpr, List.map_nil]
    intro a _
    simp [foreground_shots, hback]
  refine ⟨hback, hfore, ?_⟩
  unfold avg_eon_tof_fore
  rw [hfore]
  simp [np_average, List.map_const', List.length_range]

/-- Claim C9: the retardation-voltage lookup catches a failed metadata read,
prints a diagnostic naming the cause, substitutes the default 0 and continues;
on a successful read it combines the voltage and enable fields and prints
nothing. -/
theorem retardation_voltage_error_boundary
    (reads : Except String (ℚ × ℚ × ℚ × ℚ × ℚ × ℚ)) :
    (∀ e : String, reads = Except.error e →
      retardation_voltage_lookup reads =
        (0, ["Cannot determine retardation voltage from files. Following exception occured:", e]))
    ∧ (∀ v1 v2 v3 o1 o2 o3 : ℚ, reads = Except.ok (v1, v2, v3, o1, o2, o3) →
      retardation_voltage_lookup reads =
        (retardation_voltage_calc v1 v2 v3 o1 o2 o3, [])) := by
  constructor
  · intro e he
    rw [he]
    rfl
  · intro v1 v2 v3 o1 o2 o3 hv
    rw [hv]
    rfl

/-- Witness for C9: a concrete failed read yields the default 0 plus the
diagnostic, and a concrete successful read yields the computed voltage. -/
theorem retardation_voltage_error_boundary_witness :
    retardation_voltage_lookup (Except.error "missing field") =
      (0, ["Cannot determine retardation voltage from files. Following exception occured:", "missing field"])
    ∧ retardation_voltage_lookup (Except.ok (3, 5, 7, 1, 1, 1)) = (1, []) :=
  ⟨(retardation_voltage_error_boundary (Except.error "missing field")).1
      "missing field" rfl,
   by
    have h := (retardation_voltage_error_boundary
      (Except.ok (3, 5, 7, 1, 1, 1))).2 3 5 7 1 1 1 rfl
    rw [h]
    norm_num [retardation_voltage_calc]⟩

/-! ### Theorems on the calibration fit and the coordinate transforms -/

/-- Convergence of the fit: `fitted_C` minimises the sum of squared residuals
over the free parameter C, for every fixed KE0. -/
theorem fitted_C_minimizes (KE0 C : ℚ) :
    sum_sq_residuals KE0 (fitted_C KE0) ≤ sum_sq_residuals KE0 C := by
  have hform : ∀ D : ℚ, sum_sq_residuals KE0 D
      = ((20 - KE0) - (1/D) * (1/640000))^2 + ((10 - KE0) - (1/D) * (1/1210000))^2 := by
    intro D
    unfold sum_sq_residuals residuals ke_fit_model timezero_init
    ring
  have habs : ∀ a : ℚ,
      ((20 - KE0) - a * (1/640000))^2 + ((10 - KE0) - a * (1/1210000))^2
      = ((1/640000)^2 + (1/1210000)^2) * (a - fitted_invC KE0)^2
        + (((20 - KE0) - fitted_invC KE0 * (1/640000))^2
           + ((10 - KE0) - fitted_invC KE0 * (1/1210000))^2) := by
    intro a
    unfold fitted_invC
    field_simp
    ring
  rw [hform C, hform (fitted_C KE0), fitted_C, one_div_one_div, habs, habs (1/C)]
  nlinarith [sq_nonneg (1/C - fitted_invC KE0)]

/-- Claim C2, counterexample: with KE0 fixed at the default retardation
voltage 0, the converged least-squares fit (see `fitted_C_minimizes`) misses
the calibration energy 10 at t = 6100 by more than 1% relative tolerance
(the fitted model gives about 10.452 there). -/
theorem calibration_fit_misses_one_percent :
    ¬ |ke_fit_model (fitted_C 0) timezero_init 0 6100 - 10| ≤ (1/100) * 10 := by
  rw [abs_le]
  norm_num [ke_fit_model, fitted_C, fitted_invC, timezero_init]

/-- Claim C2, amended: with KE0 fixed at the default retardation voltage 0,
the converged least-squares fit reproduces the calibration energies 20 and 10
at t = 5800 and t = 6100 within 5% relative tolerance. -/
theorem calibration_fit_within_five_percent :
    |ke_fit_model (fitted_C 0) timezero_init 0 5800 - 20| ≤ (5/100) * 20
    ∧ |ke_fit_model (fitted_C 0) timezero_init 0 6100 - 10| ≤ (5/100) * 10 := by
  constructor
  · rw [abs_le]
    norm_num [ke_fit_model, fitted_C, fitted_invC, timezero_init]
  · rw [abs_le]
    norm_num [ke_fit_model, fitted_C, fitted_invC, timezero_init]

/-- Claim C1 (code bug): at the fitted parameters (C = `fitted_C 0`,
T0 = 5000, KE0 = 0, the default retardation voltage) the forward transform is
defined at t = 5800, yet forward-then-inverse yields the NaN sentinel instead
of recovering 5800, because the inverse guard tests `ke < 0` rather than the
correct branch condition; the reverse round trip at an energy in the claimed
valid domain (ke = -5 < KE0) already fails at the inverse, whose radicand is
negative there. -/
theorem roundtrip_fails :
    ke_coordinate_func (fitted_C 0) timezero_init 0 5800
      = some (ke_fit_model (fitted_C 0) timezero_init 0 5800)
    ∧ (ke_coordinate_func (fitted_C 0) timezero_init 0 5800).bind
        (tof_coordinate_func (fitted_C 0) timezero_init 0) = none
    ∧ tof_coordinate_func (fitted_C 0) timezero_init 0 (-5) = none := by
  refine ⟨?_, ?_, ?_⟩
  · norm_num [ke_coordinate_func, ke_fit_model, fitted_C, fitted_invC, timezero_init]
  · norm_num [ke_coordinate_func, tof_coordinate_func, fitted_C, fitted_invC,
      timezero_init, Option.bind]
  · norm_num [tof_coordinate_func, fitted_C, fitted_invC, timezero_init]

/-- Claim C3, counterexample: at the fitted parameters the energy -1 is
strictly below KE0 = 0, where the claim says the inverse transform is defined,
yet the code returns the NaN sentinel (square root of a negative radicand). -/
theorem tof_coordinate_func_nan_below_ke0 :
    tof_coordinate_func (fitted_C 0) timezero_init 0 (-1) = none := by
  norm_num [tof_coordinate_func, fitted_C, fitted_invC, timezero_init]

/-- Characterisation of the defined domain of the inverse transform, shared
by the statements about its NaN behaviour. -/
theorem tof_coordinate_func_isSome_iff (propconst timezero ke0 ke : ℚ)
    (hC : 0 < propconst) :
    (tof_coordinate_func propconst timezero ke0 ke).isSome = true
      ↔ (ke0 < ke ∧ ke < 0) := by
  unfold tof_coordinate_func
  by_cases h0 : ke < 0
  · rw [if_pos h0]
    by_cases h1 : ke ≠ ke0 ∧ 0 ≤ 1 / propconst / (ke - ke0)
    · rw [if_pos h1]
      simp only [Option.isSome_some, true_iff]
      obtain ⟨hne, hle⟩ := h1
      refine ⟨?_, h0⟩
      by_contra hlt
      push_neg at hlt
      have hd : ke - ke0 < 0 := sub_neg.mpr (lt_of_le_of_ne hlt hne)
      have : 1 / propconst / (ke - ke0) < 0 :=
        div_neg_of_pos_of_neg (one_div_pos.mpr hC) hd
      exact absurd hle (not_le.mpr this)
    · rw [if_neg h1]
      simp only [Option.isSome_none, Bool.false_eq_true, false_iff, not_and]
      intro hk0
      exact absurd ⟨ne_of_gt (by linarith), le_of_lt
        (div_pos (one_div_pos.mpr hC) (sub_pos.mpr hk0))⟩ h1
  · rw [if_neg h0]
    simp only [Option.isSome_none, Bool.false_eq_true, false_iff, not_and]
    intro _
    exact h0

/-- Claim C3, amended: for fitted C > 0 the inverse transform returns a finite
value exactly for energies strictly between KE0 and 0; every other energy (in
particular every energy below KE0, where the radicand is negative) yields the
non-finite sentinel. -/
theorem tof_coordinate_func_defined_iff (propconst timezero ke0 ke : ℚ)
    (hC : 0 < propconst) :
    (tof_coordinate_func propconst timezero ke0 ke).isSome = true
      ↔ (ke0 < ke ∧ ke < 0) :=
  tof_coordinate_func_isSome_iff propconst timezero ke0 ke hC

/-- Witness for the amended C3 at concrete parameters with KE0 = -2: the
energy -1 lies strictly between KE0 and 0 and the inverse is defined there. -/
theorem tof_coordinate_func_defined_iff_witness :
    (0:ℚ) < 1
    ∧ ((tof_coordinate_func 1 5000 (-2) (-1)).isSome = true
        ↔ ((-2:ℚ) < -1 ∧ (-1:ℚ) < 0)) :=
  ⟨by norm_num, tof_coordinate_func_defined_iff 1 5000 (-2) (-1) (by norm_num)⟩

/-- Claim C4 (code bug): both Jacobian helpers return strictly negative values
on their defined domains, not the absolute values their docstrings
("jacobian = |dT/dKE|", "jacobian = |dKE/dT|") promise: at the fitted
parameters `ke_jacobian_func` at t = 5800 is (800)^3 / (-2/C) < 0, and with
KE0 = -2 the inverse Jacobian at ke = -1 is -2 < 0. -/
theorem jacobian_not_absolute_value :
    ke_jacobian_func (fitted_C 0) timezero_init 5800
      = some ((800:ℚ)^3 / (-2 * (1 / fitted_C 0)))
    ∧ (800:ℚ)^3 / (-2 * (1 / fitted_C 0)) < 0
    ∧ tof_jacobian_func 1 0 (-2) (-1) = some (-2)
    ∧ ((-2 : ℝ) < 0) := by
  refine ⟨?_, ?_, ?_, by norm_num⟩
  · norm_num [ke_jacobian_func, fitted_C, fitted_invC, timezero_init]
  · norm_num [fitted_C, fitted_invC]
  · have hrad : ((1:ℚ) / 1 / ((-1) - (-2)) : ℚ) = 1 := by norm_num
    simp only [tof_jacobian_func, tof_coordinate_func]
    rw [if_pos (by norm_num : (-1:ℚ) < 0),
      if_pos (by constructor <;> norm_num)]
    simp only [Option.map_some, hrad]
    norm_num [Real.sqrt_one]

/-- Claim C10: whenever the fitted KE0 is non-negative (the parameter setup
fixes it at the retardation voltage with lower bound 0) and the fitted C is
positive, the inverse transform returns the NaN sentinel for every input
energy — non-negative energies fail the `ke < 0` guard, negative energies
produce a negative radicand — so the backward transform of the whole filtered
energy axis is entirely NaN. -/
theorem tof_transform_all_nan (propconst timezero ke0 : ℚ)
    (hC : 0 < propconst) (hK : 0 ≤ ke0) :
    (∀ ke : ℚ, tof_coordinate_func propconst timezero ke0 ke = none)
    ∧ ∀ n : ℕ, ∀ x ∈ back_tof_ns propconst timezero ke0 n, x = none := by
  have hall : ∀ ke : ℚ, tof_coordinate_func propconst timezero ke0 ke = none := by
    intro ke
    have := tof_coordinate_func_isSome_iff propconst timezero ke0 ke hC
    by_cases hk : ke0 < ke ∧ ke < 0
    · exfalso
      linarith [hk.1, hk.2]
    · exact Option.not_isSome_iff_eq_none.mp (fun hs => hk (this.mp hs))
  refine ⟨hall, ?_⟩
  intro n x hx
  rcases List.mem_map.mp hx with ⟨ke, _, hke⟩
  rw [← hke, hall ke]

/-- Witness for C10 at concrete parameters: the inverse transform yields NaN
at the energy -7. -/
theorem tof_transform_all_nan_witness :
    tof_coordinate_func 1 0 0 (-7) = none :=
  (tof_transform_all_nan 1 0 0 (by norm_num) (by norm_num)).1 (-7)

/-! ### Theorems on the transformed energy axis -/

/-- Helper for C8: across its defined entries the forward transform is
strictly decreasing when the fitted C is positive. -/
theorem ke_coordinate_func_strict_anti (propconst timezero ke0 : ℚ)
    (hC : 0 < propconst) {t1 t2 x y : ℚ} (h12 : t1 < t2)
    (hx : ke_coordinate_func propconst timezero ke0 t1 = some x)
    (hy : ke_coordinate_func propconst timezero ke0 t2 = some y) : y < x := by
  unfold ke_coordinate_func at hx hy
  by_cases h1 : t1 > timezero
  · rw [if_pos h1] at hx
    have h2 : t2 > timezero := lt_trans h1 h12
    rw [if_pos h2] at hy
    have hx' := Option.some_inj.mp hx
    have hy' := Option.some_inj.mp hy
    have key : (1:ℚ) / propconst / (t2 - timezero)^2
        < 1 / propconst / (t1 - timezero)^2 :=
      div_lt_div_of_pos_left (one_div_pos.mpr hC)
        (pow_pos (by linarith) 2) (by nlinarith)
    linarith [hx', hy']
  · rw [if_neg h1] at hx
    cases hx

/-- Claim C8: the filtered, reversed energy axis `eke_ev` is strictly
increasing, for every waveform length and every fitted T0 and KE0, provided
the fitted C is positive. -/
theorem eke_ev_strictly_increasing (propconst timezero ke0 : ℚ) (n : ℕ)
    (hC : 0 < propconst) :
    List.Pairwise (· < ·) (eke_ev propconst timezero ke0 n) := by
  unfold eke_ev
  rw [List.pairwise_reverse]
  have hpair : List.Pairwise (· < ·) (tof_ns n) := by
    unfold tof_ns
    rw [List.pairwise_map]
    refine (List.pairwise_lt_range n).imp ?_
    intro a b hab
    exact_mod_cast hab
  exact List.Pairwise.filterMap (ke_coordinate_func propconst timezero ke0)
    (fun a a' haa b hb b' hb' =>
      ke_coordinate_func_strict_anti propconst timezero ke0 hC haa
        (Option.mem_def.mp hb) (Option.mem_def.mp hb'))
    hpair

/-- Witness for C8 on a concrete five-sample waveform with C = 1, T0 = 2,
KE0 = 0. -/
theorem eke_ev_strictly_increasing_witness :
    (0:ℚ) < 1 ∧ List.Pairwise (· < ·) (eke_ev 1 2 0 5) :=
  ⟨by norm_num, eke_ev_strictly_increasing 1 2 0 5 (by norm_num)⟩

/-! ### Theorems on rebinning -/

/-- Endpoint form of `np.gradient`. -/
theorem np_gradient_zero (n : ℕ) (F : ℕ → ℚ) :
    np_gradient n F 0 = F 1 - F 0 := by
  unfold np_gradient
  rw [if_pos rfl]

/-- Endpoint form of `np.gradient` at the last index. -/
theorem np_gradient_last (m : ℕ) (F : ℕ → ℚ) :
    np_gradient (m + 2) F (m + 1) = F (m + 1) - F m := by
  unfold np_gradient
  have h0 : m + 1 ≠ 0 := by omega
  have hl : m + 1 = m + 2 - 1 := by omega
  rw [if_neg h0, if_pos hl]
  have e1 : m + 2 - 1 = m + 1 := by omega
  have e2 : m + 2 - 2 = m := by omega
  rw [e1, e2]

/-- Interior form of `np.gradient`. -/
theorem np_gradient_mid (m i : ℕ) (F : ℕ → ℚ) (h0 : i ≠ 0) (hl : i ≠ m + 1) :
    np_gradient (m + 2) F i = (F (i + 1) - F (i - 1)) / 2 := by
  unfold np_gradient
  have hl' : i ≠ m + 2 - 1 := by omega
  rw [if_neg h0, if_neg hl']

/-- On a uniform grid with spacing h, `np.gradient` returns h everywhere. -/
theorem np_gradient_uniform (x : ℕ → ℚ) (x0 h : ℚ) (m i : ℕ)
    (hx : ∀ j, x j = x0 + (j:ℚ) * h) :
    np_gradient (m + 2) x i = h := by
  by_cases h0 : i = 0
  · rw [h0, np_gradient_zero, hx, hx]
    push_cast
    ring
  · by_cases hl : i = m + 1
    · rw [hl, np_gradient_last, hx, hx]
      push_cast
      ring
    · rw [np_gradient_mid m i x h0 hl, hx, hx]
      have h1 : 1 ≤ i := Nat.one_le_iff_ne_zero.mpr h0
      rw [Nat.cast_sub h1]
      push_cast
      ring

/-- Helper for C5: the trapezoidal integral of the central-difference quotient
of a cumulative curve sampled on a uniform grid telescopes exactly to the
increment of the curve over the grid. -/
theorem trapz_gradient_telescope (m : ℕ) (F x : ℕ → ℚ) (x0 h : ℚ)
    (hh : h ≠ 0) (hx : ∀ j, x j = x0 + (j:ℚ) * h) :
    np_trapz (m + 2) x
      (fun i => np_gradient (m + 2) F i / np_gradient (m + 2) x i)
      = F (m + 1) - F 0 := by
  unfold np_trapz
  have hm1 : m + 2 - 1 = m + 1 := by omega
  rw [hm1]
  have hstep : ∀ i : ℕ,
      ((fun i => np_gradient (m + 2) F i / np_gradient (m + 2) x i) i
        + (fun i => np_gradient (m + 2) F i / np_gradient (m + 2) x i) (i + 1)) / 2
        * (x (i + 1) - x i)
      = np_gradient (m + 2) F i / 2 + np_gradient (m + 2) F (i + 1) / 2 := by
    intro i
    simp only
    rw [np_gradient_uniform x x0 h m i hx, np_gradient_uniform x x0 h m (i + 1) hx,
      hx (i + 1), hx i]
    push_cast
    field_simp
    ring
  rw [Finset.sum_congr rfl (fun i _ => hstep i), Finset.sum_add_distrib]
  have hshift : ∑ i ∈ Finset.range (m + 1), np_gradient (m + 2) F (i + 1) / 2
      = (∑ i ∈ Finset.range (m + 2), np_gradient (m + 2) F i / 2)
        - np_gradient (m + 2) F 0 / 2 := by
    rw [Finset.sum_range_succ' (fun i => np_gradient (m + 2) F i / 2) (m + 1)]
    ring
  have hfront : ∑ i ∈ Finset.range (m + 1), np_gradient (m + 2) F i / 2
      = (∑ i ∈ Finset.range (m + 2), np_gradient (m + 2) F i / 2)
        - np_gradient (m + 2) F (m + 1) / 2 := by
    rw [Finset.sum_range_succ (fun i => np_gradient (m + 2) F i / 2) (m + 1)]
    ring
  have hmid : ∑ i ∈ Finset.range m, np_gradient (m + 2) F (i + 1) / 2
      = (F (m + 1) + F m) / 4 - (F 1 + F 0) / 4 := by
    have hterm : ∀ i ∈ Finset.range m, np_gradient (m + 2) F (i + 1) / 2
        = (F (i + 1 + 1) + F (i + 1)) / 4 - (F (i + 1) + F i) / 4 := by
      intro i hi
      have hmem := Finset.mem_range.mp hi
      have hne0 : i + 1 ≠ 0 := by omega
      have hnel : i + 1 ≠ m + 1 := by omega
      rw [np_gradient_mid m (i + 1) F hne0 hnel]
      have e2 : i + 1 - 1 = i := by omega
      rw [e2]
      ring
    rw [Finset.sum_congr rfl hterm,
      Finset.sum_range_sub (fun i => (F (i + 1) + F i) / 4) m]
  have htot : ∑ i ∈ Finset.range (m + 2), np_gradient (m + 2) F i / 2
      = np_gradient (m + 2) F 0 / 2
        + ((F (m + 1) + F m) / 4 - (F 1 + F 0) / 4)
        + np_gradient (m + 2) F (m + 1) / 2 := by
    rw [Finset.sum_range_succ (fun i => np_gradient (m + 2) F i / 2) (m + 1),
      Finset.sum_range_succ' (fun i => np_gradient (m + 2) F i / 2) m, hmid]
    ring
  rw [hshift, hfront, htot, np_gradient_zero, np_gradient_last]
  ring

/-- Claim C5: rebinning conserves the integrated signal: the trapezoidal
integral of the resampled spectrum over the uniform 1000-point grid equals the
increment over the overlapping energy range [e0, 50] of the (interpolated)
cumulative integral G of the original filtered spectrum — exactly, for every
cumulative curve G and every grid start e0 < 50. -/
theorem rebinning_conserves_integral (G : ℚ → ℚ) (e0 : ℚ) (h50 : e0 < 50) :
    np_trapz 1000 (new_eke_ev e0) (new_avg_eon_eke G e0) = G 50 - G e0 := by
  have hh : (50 - e0) / 999 ≠ 0 :=
    ne_of_gt (div_pos (by linarith) (by norm_num))
  have key := trapz_gradient_telescope 998 (fun j => G (new_eke_ev e0 j))
    (new_eke_ev e0) e0 ((50 - e0) / 999) hh (fun j => rfl)
  have e999 : new_eke_ev e0 999 = 50 := by
    unfold new_eke_ev
    push_cast
    field_simp
  have ez : new_eke_ev e0 0 = e0 := by
    unfold new_eke_ev
    push_cast
    ring
  have h1000 : (998 : ℕ) + 2 = 1000 := by norm_num
  rw [h1000] at key
  simp only at key
  rw [e999, ez] at key
  unfold new_avg_eon_eke
  exact key

/-- Witness for C5 with the identity cumulative curve starting at e0 = 0: the
trapezoidal integral of the resampled spectrum is 50 - 0. -/
theorem rebinning_conserves_integral_witness :
    np_trapz 1000 (new_eke_ev 0) (new_avg_eon_eke (fun e => e) 0)
      = (fun e : ℚ => e) 50 - (fun e : ℚ => e) 0 :=
  rebinning_conserves_integral (fun e => e) 0 (by norm_num)
